import Mathlib

/-!
Shallow embedding of the retrieval engine of `src/app.py`
(steveee27/Recommendation-System-FMCG).

The embedded pieces, with the line numbers of the Python source:
* `canonId`          — the `str(...)` normalisation applied to every identifier
                       before a lookup (lines 63, 66, 297, 317, 318, 335).
* `user_map`         — line 63: dict comprehension id → row index, built by
                       sequential insertion over `enumerate(maps['user_ids'])`.
* `item_inv_map`     — line 66: dict row index → `str(mid)` over
                       `enumerate(maps['item_ids'])`.
* `argsortAsc`       — line 312: `np.argsort(scores)`.  An ascending sort on
                       (index, score) pairs; numpy documents that NaN compares
                       greater than every number and is sorted to the end, but
                       its default sort kind is not stable, so the model's
                       first-come tie order is one admissible resolution and
                       no theorem relies on it beyond two-element inputs
                       (where numpy uses its stable insertion-sort path).
* `topCandidates`    — line 312: `np.argsort(scores)[-(n + 100):][::-1]`.
* `filterLoopM`      — lines 320-329: the history-filter loop, including the
                       append-then-test placement of the `len >= n` break and
                       the per-candidate `item_inv_map[idx]` lookup, which can
                       fail (KeyError) and is therefore Option-valued.
* `user_history_mids`— line 335: pandas `unique()` keeps the first occurrence
                       of each value, in order of appearance.
* `already_bought_set` — lines 317-318.
* `npDotRow`         — line 307: one row of `np.dot(item_vecs, target)`;
                       fails unless the two vectors have the same length.
* `get_twotower_recommendations` — lines 292-331.
* `load_data` / `initializeApp` — lines 46-83: the artifact files are loaded
                       as single whole files (no shard loop exists in the
                       code); any missing file raises, the surrounding
                       try/except reports the error and stops the app.

Scores are modelled over ℚ extended with a NaN element: none of the verified
claims depends on floating-point rounding, only on the order in which numpy
sorts score values (including NaN placement).
-/

/-- Raw identifiers as they occur in the artifacts: the source data mixes
numeric and string representations of the same identifier. -/
inductive RawId where
  | intId : Int → RawId
  | strId : String → RawId
deriving DecidableEq, Repr

/-- Canonical string form of an identifier: the `str(...)` call the code
applies before every lookup or comparison. -/
def canonId : RawId → String
  | .intId n => toString n
  | .strId s => s

/-- A score value as numpy sorting sees it: either an ordinary number
(modelled as a rational) or NaN. -/
inductive Score where
  | nan : Score
  | val : ℚ → Score
deriving DecidableEq, Repr

/-- The comparison used by numpy when sorting scores ascending: NaN compares
greater than (or tied with) everything and therefore lands at the end of an
ascending sort. -/
def scoreLE : Score → Score → Bool
  | .val a, .val b => decide (a ≤ b)
  | .val _, .nan => true
  | .nan, .val _ => false
  | .nan, .nan => true

/-- Ascending comparison on (original index, score) pairs: only the score is
compared, so equal scores are ties. -/
def pairLE (p q : ℕ × Score) : Prop := scoreLE p.2 q.2 = true

instance instDecRelPairLE : DecidableRel pairLE :=
  fun p q => inferInstanceAs (Decidable (scoreLE p.2 q.2 = true))

/-- Embeds `np.argsort(scores)` of line 312: indices of the scores, ordered
so that the scores are ascending.  numpy guarantees the ascending order and
that NaN sorts to the end, but its default sort kind (quicksort) is
documented as not stable, so the order of equal scores is NOT guaranteed by
the program; this model resolves ties by keeping the original relative
order (one admissible resolution — numpy falls back to a stable insertion
sort on partitions of up to 16 elements).  No theorem below depends on the
tie order of this model except through concrete inputs of at most two
elements, where numpy deterministically takes the stable small-array
path. -/
def argsortAsc (scores : List Score) : List ℕ :=
  (List.insertionSort pairLE scores.enum).map Prod.fst

/-- Python slice `l[-k:]` for `k > 0`: the last `min k (length l)` elements. -/
def lastSlice (k : ℕ) (l : List ℕ) : List ℕ := l.drop (l.length - k)

/-- Embeds line 312: `np.argsort(scores)[-(n + 100):][::-1]`, the overfetched
candidate window, highest scores first. -/
def topCandidates (scores : List Score) (n : ℕ) : List ℕ :=
  (lastSlice (n + 100) (argsortAsc scores)).reverse

/-- The full descending ranking `np.argsort(scores)[::-1]`: what the window
would be if it covered the whole catalog.  Used to state the ranking-order
claims. -/
def rankedOrder (scores : List Score) : List ℕ :=
  (argsortAsc scores).reverse

/-- Embeds line 66: `item_inv_map = (i : str(mid) for i, mid in
enumerate(maps with item_ids))`.  The keys are exactly the indices
`0 .. length - 1`, so the dict is index lookup followed by `str`. -/
def item_inv_map (item_ids : List RawId) (i : ℕ) : Option String :=
  (item_ids.get? i).map canonId

/-- One insertion step of a Python dict build: the new binding overwrites any
earlier binding of the same key. -/
def dictInsertStep (m : String → Option ℕ) (p : ℕ × RawId) : String → Option ℕ :=
  fun k => if k = canonId p.2 then some p.1 else m k

/-- Embeds line 63: `user_map = (str(uid) : i for i, uid in
enumerate(maps with user_ids))`, built by sequential insertion, later
bindings overwriting earlier ones. -/
def user_map (user_ids : List RawId) : String → Option ℕ :=
  user_ids.enum.foldl dictInsertStep (fun _ => none)

/-- First-seen deduplication with an explicit seen accumulator: the
behaviour of pandas `unique()`, which keeps the first occurrence of each
value in order of appearance. -/
def uniqueAux [DecidableEq α] (seen : List α) : List α → List α
  | [] => []
  | a :: l => if a ∈ seen then uniqueAux seen l else a :: uniqueAux (a :: seen) l

/-- The purchase-log rows of one customer, in log order, after the string
comparison of line 335 (`customer_id.astype(str) == str(selected)`): the raw
`mid` column of the matching rows. -/
def matchingMids (orders : List (RawId × RawId)) (cid : RawId) : List RawId :=
  (orders.filter (fun r => decide (canonId r.1 = canonId cid))).map Prod.snd

/-- Embeds line 335: `order_cust[...]['mid'].unique().tolist()` — the
customer's distinct purchased mids, first occurrence first. -/
def user_history_mids (orders : List (RawId × RawId)) (cid : RawId) : List RawId :=
  uniqueAux [] (matchingMids orders cid)

/-- Embeds lines 317-318: the set of canonical strings of the purchased mids
(`set(str(x) for x in already_bought)`), kept as a list and used only through
membership. -/
def already_bought_set (orders : List (RawId × RawId)) (cid : RawId) : List String :=
  (user_history_mids orders cid).map canonId

/-- One row of `np.dot(item_vecs, target_user_vec)` (line 307): the inner
product, defined only when the dimensions agree (numpy raises otherwise). -/
def npDotRow (v u : List ℚ) : Option ℚ :=
  if v.length = u.length then some ((List.zipWith (fun a b => a * b) v u).sum) else none

/-- The whole of `np.dot(item_vecs, target_user_vec)` (line 307): one score
per item row, in row order; any dimension mismatch raises, so the whole
product is Option-valued. -/
def npDotMatrix : List (List ℚ) → List ℚ → Option (List ℚ)
  | [], _ => some []
  | v :: rest, u => (npDotRow v u).bind fun s => (npDotMatrix rest u).map (fun l => s :: l)

/-- Embeds the loop of lines 320-329: walk the candidate window, look each
index up in the item reverse map (a failing lookup is a raised KeyError,
hence `none`), append the mid when it was not bought, and stop as soon as
the accumulated list has length at least `n` — the length test runs after
the append, in loop order. -/
def filterLoopM (inv : ℕ → Option String) (bought : List String) (n : ℕ) :
    List String → List ℕ → Option (List String)
  | acc, [] => some acc
  | acc, idx :: rest =>
    match inv idx with
    | none => none
    | some mid =>
      let acc2 := if mid ∈ bought then acc else acc ++ [mid]
      if n ≤ acc2.length then some acc2 else filterLoopM inv bought n acc2 rest

/-- The in-memory state of the app after `load_data` succeeded: the two
embedding matrices, the id lists the two maps are built from, and the
purchase log (`order_cust`). -/
structure AppData where
  user_ids : List RawId
  item_ids : List RawId
  user_vecs : List (List ℚ)
  item_vecs : List (List ℚ)
  orders : List (RawId × RawId)

/-- Embeds `get_twotower_recommendations` (lines 292-331): unknown customer
returns an empty list outright; otherwise score every item row against the
customer vector, take the reversed `n + 100` argsort window, and run the
history-filter loop.  `none` models a raised exception (an out-of-range row
or a failed reverse-map lookup), `some recs` a normal return. -/
def get_twotower_recommendations (d : AppData) (customer_id : RawId) (n : ℕ) :
    Option (List String) :=
  match user_map d.user_ids (canonId customer_id) with
  | none => some []
  | some u_idx =>
    (d.user_vecs.get? u_idx).bind fun target =>
    (npDotMatrix d.item_vecs target).bind fun scoresQ =>
    filterLoopM (item_inv_map d.item_ids) (already_bought_set d.orders customer_id) n []
      (topCandidates (scoresQ.map Score.val) n)

/-- The artifact directory as `load_data` (lines 46-75) sees it: each file is
either present with decoded content or absent.  The code loads each artifact
as one single file — there is no shard loop. -/
structure FileStore where
  user_embeddings : Option (List (List ℚ))
  item_embeddings : Option (List (List ℚ))
  twotower_maps : Option (List RawId × List RawId)
  user_history : Option (List (RawId × RawId))
  product_metadata : Option (List (RawId × String))

/-- Reading one artifact file: absent file raises (here: an error naming the
file), present file decodes. -/
def requireFile (name : String) : Option α → Except String α
  | some a => .ok a
  | none => .error name

/-- Embeds `load_data` (lines 46-75), in the load order of the code:
user embeddings, item embeddings, the id maps, the user history, the product
metadata.  Any missing file raises; nothing is tolerated or skipped. -/
def load_data (fs : FileStore) :
    Except String
      (List (List ℚ) × List (List ℚ) × (String → Option ℕ) × (ℕ → Option String) ×
        List (RawId × String) × List (RawId × RawId)) :=
  (requireFile ( "app_data/user_embeddings.npy" ) fs.user_embeddings).bind fun uv =>
  (requireFile ( "app_data/item_embeddings.npy" ) fs.item_embeddings).bind fun iv =>
  (requireFile ( "app_data/twotower_maps.pkl" ) fs.twotower_maps).bind fun maps =>
  (requireFile ( "app_data/user_history.pkl" ) fs.user_history).bind fun history =>
  (requireFile ( "app_data/product_metadata.pkl" ) fs.product_metadata).bind fun products =>
  .ok (uv, iv, user_map maps.1, item_inv_map maps.2, products, history)

/-- Embeds lines 78-83: the try/except around the global `load_data()` call —
on any exception the app shows an error and stops, so initialization yields
no state. -/
def initializeApp (fs : FileStore) :
    Option
      (List (List ℚ) × List (List ℚ) × (String → Option ℕ) × (ℕ → Option String) ×
        List (RawId × String) × List (RawId × RawId)) :=
  (load_data fs).toOption

/-- Modelled from the spec: the history sequence the spec describes —
distinct purchased ids, ordered by first occurrence in the purchase log —
written as the direct fold that appends each id the first time it is seen. -/
def firstSeenSpec [DecidableEq α] (l : List α) : List α :=
  l.foldl (fun acc a => if a ∈ acc then acc else acc ++ [a]) []

/-- The score of item row `i` in a score array (out-of-range reads as NaN;
only in-range indices ever occur in the theorems below). -/
def scoreAt (scores : List Score) (i : ℕ) : Score :=
  scores.getD i Score.nan

/-- Concrete artifact state used to exercise the request-count-zero edge of
the filter loop: one customer, one item, no purchase history. -/
def dataOneItemNoOrders : AppData :=
  ⟨[ RawId.strId ( "u" ) ], [ RawId.strId ( "a" ) ], [ [ 1 ] ], [ [ 1 ] ], []⟩

/-- Concrete artifact state with one customer who has already bought the
only catalog item: a known customer with no eligible items. -/
def dataOneItemAllBought : AppData :=
  ⟨[ RawId.strId ( "u1" ) ], [ RawId.strId ( "a" ) ], [ [ 1 ] ], [ [ 1 ] ],
    [ (RawId.strId ( "u1" ), RawId.strId ( "a" )) ]⟩

/-- Concrete artifact state with a 102-item catalog where the customer has
bought exactly the 101 best-scoring items: the `n + 100` candidate window
(for a request of one item) is saturated with purchased items while the
catalog still contains one eligible item. -/
def dataSaturatedWindow : AppData :=
  ⟨[ RawId.intId 0 ],
    (List.range 102).map (fun i => RawId.intId (i : ℤ)),
    [ [ 1 ] ],
    (List.range 102).map (fun i => [ ((i : ℚ)) ]),
    (List.range 101).map (fun i => (RawId.intId 0, RawId.intId ((i : ℤ) + 1)))⟩

/-- Concrete artifact state for a straightforward successful query: one
customer, one item, no purchases. -/
def dataSimpleQuery : AppData :=
  ⟨[ RawId.intId 1 ], [ RawId.intId 5 ], [ [ 1 ] ], [ [ 2 ] ], []⟩

/-- Concrete file store with every artifact present except the user history
file. -/
def storeNoHistory : FileStore :=
  ⟨some [ [ 1 ] ], some [ [ 1 ] ], some ([ RawId.intId 1 ], [ RawId.intId 2 ]), none,
    some []⟩

/- ------------------------------------------------------------------ -/
/- Theorems.                                                           -/
/- ------------------------------------------------------------------ -/

theorem scoreLE_refl (s : Score) : scoreLE s s = true := by
  cases s <;> simp [scoreLE]

theorem scoreLE_total (s t : Score) : scoreLE s t = true ∨ scoreLE t s = true := by
  cases s <;> cases t <;> simp [scoreLE]
  exact le_total _ _

theorem scoreLE_trans {s t u : Score} (h1 : scoreLE s t = true) (h2 : scoreLE t u = true) :
    scoreLE s u = true := by
  cases s <;> cases t <;> cases u <;> simp_all [scoreLE]
  exact le_trans h1 h2

theorem scoreLE_nan_left {s : Score} (h : scoreLE Score.nan s = true) : s = Score.nan := by
  cases s <;> simp_all [scoreLE]

/-- The relation that characterises the stable ascending sort of the
(index, score) pairs: scores ascend, and equal scores keep ascending index
order. -/
def rankRel (p q : ℕ × Score) : Prop :=
  scoreLE p.2 q.2 = true ∧ (p.2 = q.2 → p.1 < q.1)

theorem orderedInsert_rankRel (a : ℕ × Score) :
    ∀ l : List (ℕ × Score), (∀ b ∈ l, a.1 < b.1) → l.Pairwise rankRel →
      (List.orderedInsert pairLE a l).Pairwise rankRel := by
  intro l
  induction l with
  | nil => intro _ _; simp
  | cons b t ih =>
    intro ha hl
    rw [List.orderedInsert]
    by_cases hle : pairLE a b
    · rw [if_pos hle]
      refine List.pairwise_cons.2 ⟨?_, hl⟩
      intro x hx
      rcases List.mem_cons.1 hx with rfl | hxt
      · exact ⟨hle, fun _ => ha x (List.mem_cons_self _ _)⟩
      · have hbx := (List.pairwise_cons.1 hl).1 x hxt
        exact ⟨scoreLE_trans hle hbx.1, fun _ => ha x (List.mem_cons.2 (Or.inr hxt))⟩
    · rw [if_neg hle]
      have hbt := List.pairwise_cons.1 hl
      refine List.pairwise_cons.2 ⟨?_, ih (fun c hc => ha c (List.mem_cons.2 (Or.inr hc))) hbt.2⟩
      intro x hx
      rcases (List.mem_orderedInsert pairLE).1 hx with rfl | hxt
      · constructor
        · rcases scoreLE_total x.2 b.2 with h | h
          · exact absurd h hle
          · exact h
        · intro heq
          have hab : pairLE x b := by
            show scoreLE x.2 b.2 = true
            rw [heq]
            exact scoreLE_refl _
          exact absurd hab hle
      · exact hbt.1 x hxt

theorem insertionSort_rankRel :
    ∀ l : List (ℕ × Score), l.Pairwise (fun p q => p.1 < q.1) →
      (List.insertionSort pairLE l).Pairwise rankRel := by
  intro l
  induction l with
  | nil => intro _; simp [List.insertionSort]
  | cons a t ih =>
    intro hl
    have ht := List.pairwise_cons.1 hl
    rw [List.insertionSort]
    refine orderedInsert_rankRel a _ ?_ (ih ht.2)
    intro b hb
    exact ht.1 b ((List.perm_insertionSort pairLE t).mem_iff.1 hb)

theorem enum_pairwise_fst_lt (l : List Score) :
    l.enum.Pairwise (fun p q : ℕ × Score => p.1 < q.1) := by
  have h := List.pairwise_lt_range l.length
  rw [← List.enum_map_fst l, List.pairwise_map] at h
  exact h

theorem insertionSort_enum_rankRel (scores : List Score) :
    (List.insertionSort pairLE scores.enum).Pairwise rankRel :=
  insertionSort_rankRel _ (enum_pairwise_fst_lt scores)

theorem mem_insertionSort_enum {scores : List Score} {p : ℕ × Score}
    (hp : p ∈ List.insertionSort pairLE scores.enum) :
    p.1 < scores.length ∧ p.2 = scoreAt scores p.1 := by
  have hmem : p ∈ scores.enum := (List.perm_insertionSort pairLE scores.enum).mem_iff.1 hp
  obtain ⟨i, s⟩ := p
  have h := List.mem_enum hmem
  refine ⟨h.1, ?_⟩
  show s = scoreAt scores i
  rw [scoreAt, List.getD_eq_getElem _ _ h.1]
  exact h.2

theorem argsortAsc_pairwise (scores : List Score) :
    (argsortAsc scores).Pairwise (fun i j =>
      scoreLE (scoreAt scores i) (scoreAt scores j) = true ∧
        (scoreAt scores i = scoreAt scores j → i < j)) := by
  rw [argsortAsc, List.pairwise_map]
  refine (insertionSort_enum_rankRel scores).imp_of_mem ?_
  intro p q hp hq hpq
  have hp2 := (mem_insertionSort_enum hp).2
  have hq2 := (mem_insertionSort_enum hq).2
  rw [← hp2, ← hq2]
  exact hpq

theorem argsortAsc_perm (scores : List Score) :
    (argsortAsc scores).Perm (List.range scores.length) := by
  rw [argsortAsc, ← List.enum_map_fst scores]
  exact (List.perm_insertionSort pairLE scores.enum).map Prod.fst

theorem mem_argsortAsc_lt {scores : List Score} {i : ℕ} (h : i ∈ argsortAsc scores) :
    i < scores.length :=
  List.mem_range.1 ((argsortAsc_perm scores).mem_iff.1 h)

theorem mem_topCandidates_lt {scores : List Score} {n i : ℕ}
    (h : i ∈ topCandidates scores n) : i < scores.length := by
  rw [topCandidates, List.mem_reverse] at h
  exact mem_argsortAsc_lt (List.mem_of_mem_drop h)

theorem filterLoopM_length {inv : ℕ → Option String} {bought : List String} {n : ℕ} :
    ∀ (cands : List ℕ) (acc r : List String), acc.length < n →
      filterLoopM inv bought n acc cands = some r → r.length ≤ n := by
  intro cands
  induction cands with
  | nil =>
    intro acc r hlt h
    rw [filterLoopM] at h
    cases h
    exact Nat.le_of_lt hlt
  | cons idx rest ih =>
    intro acc r hlt h
    rw [filterLoopM] at h
    cases hinv : inv idx with
    | none => rw [hinv] at h; cases h
    | some mid =>
      rw [hinv] at h
      simp only at h
      by_cases hb : mid ∈ bought
      · rw [if_pos hb] at h
        rw [if_neg (by omega)] at h
        exact ih acc r hlt h
      · rw [if_neg hb] at h
        by_cases hn : n ≤ (acc ++ [mid]).length
        · rw [if_pos hn] at h
          cases h
          simp only [List.length_append, List.length_singleton]
          omega
        · rw [if_neg hn] at h
          refine ih _ r ?_ h
          simp only [List.length_append, List.length_singleton] at hn ⊢
          omega

theorem filterLoopM_not_bought {inv : ℕ → Option String} {bought : List String} {n : ℕ} :
    ∀ (cands : List ℕ) (acc r : List String),
      filterLoopM inv bought n acc cands = some r →
      ∀ x ∈ r, x ∈ acc ∨ x ∉ bought := by
  intro cands
  induction cands with
  | nil =>
    intro acc r h x hx
    rw [filterLoopM] at h
    cases h
    exact Or.inl hx
  | cons idx rest ih =>
    intro acc r h x hx
    rw [filterLoopM] at h
    cases hinv : inv idx with
    | none => rw [hinv] at h; cases h
    | some mid =>
      rw [hinv] at h
      simp only at h
      by_cases hb : mid ∈ bought
      · rw [if_pos hb] at h
        by_cases hn : n ≤ acc.length
        · rw [if_pos hn] at h
          cases h
          exact Or.inl hx
        · rw [if_neg hn] at h
          exact ih acc r h x hx
      · rw [if_neg hb] at h
        by_cases hn : n ≤ (acc ++ [mid]).length
        · rw [if_pos hn] at h
          cases h
          rcases List.mem_append.1 hx with hx | hx
          · exact Or.inl hx
          · rcases List.mem_singleton.1 hx with rfl
            exact Or.inr hb
        · rw [if_neg hn] at h
          rcases ih _ r h x hx with hx2 | hx2
          · rcases List.mem_append.1 hx2 with hx3 | hx3
            · exact Or.inl hx3
            · rcases List.mem_singleton.1 hx3 with rfl
              exact Or.inr hb
          · exact Or.inr hx2

theorem filterLoopM_eq_take {inv : ℕ → Option String} {bought : List String} {n : ℕ} :
    ∀ (cands : List ℕ) (acc : List String),
      (∀ i ∈ cands, (inv i).isSome) → acc.length < n →
      filterLoopM inv bought n acc cands =
        some (acc ++
          ((cands.filterMap inv).filter (fun m => decide (m ∉ bought))).take (n - acc.length)) := by
  intro cands
  induction cands with
  | nil =>
    intro acc _ _
    simp [filterLoopM]
  | cons idx rest ih =>
    intro acc htot hlt
    have hidx : (inv idx).isSome := htot idx (List.mem_cons_self _ _)
    rcases Option.isSome_iff_exists.1 hidx with ⟨mid, hmid⟩
    have htot2 : ∀ i ∈ rest, (inv i).isSome :=
      fun i hi => htot i (List.mem_cons.2 (Or.inr hi))
    rw [filterLoopM, hmid]
    simp only
    rw [List.filterMap_cons, hmid]
    by_cases hb : mid ∈ bought
    · rw [if_pos hb, if_neg (by omega)]
      rw [ih acc htot2 hlt]
      simp [List.filter_cons, hb]
    · rw [if_neg hb]
      have hfc :
          ((mid :: rest.filterMap inv).filter (fun m => decide (m ∉ bought))) =
            mid :: ((rest.filterMap inv).filter (fun m => decide (m ∉ bought))) := by
        simp [List.filter_cons, hb]
      by_cases hn : n ≤ (acc ++ [mid]).length
      · rw [if_pos hn]
        have hlen : n - acc.length = 1 := by
          simp only [List.length_append, List.length_singleton] at hn
          omega
        rw [hfc, hlen]
        simp
      · rw [if_neg hn]
        have hlt2 : (acc ++ [mid]).length < n := by
          simp only [List.length_append, List.length_singleton] at hn ⊢
          omega
        rw [ih _ htot2 hlt2, hfc]
        have hsub : n - acc.length = (n - (acc ++ [mid]).length) + 1 := by
          simp only [List.length_append, List.length_singleton]
          simp only [List.length_append, List.length_singleton] at hn
          omega
        rw [hsub, List.take_succ_cons]
        simp

theorem item_inv_map_isSome {ids : List RawId} {i : ℕ} (h : i < ids.length) :
    (item_inv_map ids i).isSome := by
  rw [item_inv_map, List.get?_eq_getElem?, List.getElem?_eq_getElem h]
  rfl

theorem npDotMatrix_length :
    ∀ (l : List (List ℚ)) (u : List ℚ) (r : List ℚ),
      npDotMatrix l u = some r → r.length = l.length := by
  intro l
  induction l with
  | nil =>
    intro u r h
    rw [npDotMatrix] at h
    cases h
    rfl
  | cons v rest ih =>
    intro u r h
    rw [npDotMatrix] at h
    cases hrow : npDotRow v u with
    | none => rw [hrow] at h; cases h
    | some s =>
      rw [hrow, Option.some_bind] at h
      cases hrest : npDotMatrix rest u with
      | none => rw [hrest] at h; cases h
      | some tl =>
        rw [hrest] at h
        cases h
        simp [ih u tl hrest]

theorem npDot_single (x : ℚ) : npDotRow [ x ] [ 1 ] = some x := by
  simp [npDotRow]

theorem npDotMatrix_map {α : Type} (g : α → List ℚ) (u : List ℚ) (h : α → ℚ)
    (hgh : ∀ a, npDotRow (g a) u = some (h a)) :
    ∀ l : List α, npDotMatrix (l.map g) u = some (l.map h) := by
  intro l
  induction l with
  | nil => rfl
  | cons a t ih =>
    rw [List.map_cons, npDotMatrix, hgh a, Option.some_bind, ih]
    rfl

/-- C4 (amended): the ranking is a permutation of all item rows ordered by
descending score (in the numpy comparison, where NaN is greatest).  The
claimed ascending-original-index tie-break does NOT hold (see the
counterexample), and no tie order among equal scores is guaranteed by the
program: the code reverses `np.argsort` with the default sort kind, which
numpy documents as not stable, so this theorem asserts only the descending
score order and makes no claim about the relative order of equal scores. -/
theorem claim_C4_ranking_descending_ties_unspecified (scores : List Score) :
    (rankedOrder scores).Perm (List.range scores.length) ∧
    (rankedOrder scores).Pairwise (fun a b =>
      scoreLE (scoreAt scores b) (scoreAt scores a) = true) := by
  constructor
  · exact (List.reverse_perm _).trans (argsortAsc_perm scores)
  · rw [rankedOrder, List.pairwise_reverse]
    refine (argsortAsc_pairwise scores).imp ?_
    intro i j h
    exact h.1

/-- C4 counterexample: with two items of equal score the claimed
ascending-index tie-break would rank item 0 first, but the code
(reversed stable ascending argsort) ranks item 1 first. -/
theorem claim_C4_counterexample :
    rankedOrder [ Score.val 1, Score.val 1 ] = [ 1, 0 ] ∧
    rankedOrder [ Score.val 1, Score.val 1 ] ≠ [ 0, 1 ] := by
  constructor
  · rfl
  · decide

/-- C5 (amended): in the descending ranked list, every NaN-scored item is
placed BEFORE all non-NaN items (numpy sorts NaN as the greatest value to
the end of the ascending order, and the code then reverses), not after
them as the claim states. -/
theorem claim_C5_nan_sorted_first (scores : List Score) :
    (rankedOrder scores).Pairwise (fun a b =>
      scoreAt scores a = Score.nan ∨ scoreAt scores b ≠ Score.nan) := by
  rw [rankedOrder, List.pairwise_reverse]
  refine (argsortAsc_pairwise scores).imp ?_
  intro i j h
  by_cases hi : scoreAt scores i = Score.nan
  · left
    rw [hi] at h
    exact scoreLE_nan_left h.1
  · right
    exact hi

/-- C5 counterexample: with one NaN score and one numeric score the claim
demands the NaN item (row 0) ranked after row 1, i.e. the ranked list
would be the list 1-then-0; the code produces 0-then-1. -/
theorem claim_C5_counterexample :
    rankedOrder [ Score.nan, Score.val 0 ] = [ 0, 1 ] ∧
    rankedOrder [ Score.nan, Score.val 0 ] ≠ [ 1, 0 ] := by
  constructor
  · rfl
  · decide

/-- C6 (amended): for every target count of at least one, the filter loop
returns exactly the first n candidates not in the purchase set, in input
order — all eligible ones when fewer than n exist — with no second fetch
and no padding; for target count 0 the loop still examines the first
candidate and can return it, so the claim fails there. -/
theorem claim_C6_filter_takes_first_eligible (inv : ℕ → Option String)
    (bought : List String) (n : ℕ) (cands : List ℕ)
    (hn : 1 ≤ n) (htot : ∀ i ∈ cands, (inv i).isSome) :
    filterLoopM inv bought n [] cands =
      some (((cands.filterMap inv).filter (fun m => decide (m ∉ bought))).take n) := by
  rw [filterLoopM_eq_take cands [] htot (by simp only [List.length_nil]; omega)]
  simp

/-- C6 witness: a run of the loop on one eligible candidate with target
count 1 returns exactly that candidate. -/
theorem claim_C6_witness :
    filterLoopM (fun _ => some ( "a" )) [] 1 [] [ 0 ] =
      some ((([ 0 ].filterMap (fun _ => some ( "a" ))).filter
        (fun m => decide (m ∉ ([] : List String)))).take 1) :=
  claim_C6_filter_takes_first_eligible _ _ 1 _ (by decide) (by decide)

/-- C6 counterexample: with target count 0 the claim demands the empty
list (the first 0 eligible candidates), but the loop appends the first
eligible candidate before testing the break condition and returns it. -/
theorem claim_C6_counterexample :
    filterLoopM (fun _ => some ( "a" )) [] 0 [] [ 0 ] = some [ "a" ] ∧
    ((([ 0 ].filterMap (fun _ => some ( "a" ))).filter
        (fun m => decide (m ∉ ([] : List String)))).take 0) = ([] : List String) ∧
    some ([] : List String) ≠ some [ "a" ] := by
  refine ⟨rfl, rfl, by decide⟩

/-- C10: every candidate row index in the overfetched window is a valid key
of the item reverse map — the lookup in the loop cannot fail — provided the
item id list is at least as long as the item embedding matrix, the unchecked
cross-artifact precondition. -/
theorem claim_C10_window_indices_are_valid_keys
    (d : AppData) (cid : RawId) (n u_idx idx : ℕ) (target : List ℚ) (scoresQ : List ℚ)
    (_hmap : user_map d.user_ids (canonId cid) = some u_idx)
    (_hvec : d.user_vecs.get? u_idx = some target)
    (hsc : npDotMatrix d.item_vecs target = some scoresQ)
    (hlen : d.item_vecs.length ≤ d.item_ids.length)
    (hidx : idx ∈ topCandidates (scoresQ.map Score.val) n) :
    (item_inv_map d.item_ids idx).isSome := by
  apply item_inv_map_isSome
  have h1 := mem_topCandidates_lt hidx
  rw [List.length_map] at h1
  have h2 := npDotMatrix_length _ _ _ hsc
  omega

/-- C10 witness: in the one-item store the only window index is 0 and the
reverse-map lookup at 0 succeeds. -/
theorem claim_C10_witness : (item_inv_map dataSimpleQuery.item_ids 0).isSome :=
  claim_C10_window_indices_are_valid_keys dataSimpleQuery (RawId.intId 1) 1 0 0
    [ 1 ] [ 2 ] (by decide) (by decide)
    (by show npDotMatrix [ [ (2 : ℚ) ] ] [ 1 ] = some [ 2 ]
        rw [npDotMatrix, npDot_single, Option.some_bind, npDotMatrix]
        rfl)
    (by decide) (by decide)

/-- C2 (amended): a customer whose canonical id is absent from the customer
index gets the empty list, deterministically; the code returns a bare list
with no accompanying boolean or enum, so this output is identical to that
of a known customer with no eligible items (see the counterexample). -/
theorem claim_C2_unknown_customer_empty_list (d : AppData) (cid : RawId) (n : ℕ)
    (h : user_map d.user_ids (canonId cid) = none) :
    get_twotower_recommendations d cid n = some [] := by
  rw [get_twotower_recommendations, h]

/-- C2 witness: the customer u2 is not in the index of the one-customer
store and receives the empty list. -/
theorem claim_C2_witness :
    get_twotower_recommendations dataOneItemAllBought (RawId.strId ( "u2" )) 1 = some [] :=
  claim_C2_unknown_customer_empty_list dataOneItemAllBought (RawId.strId ( "u2" )) 1 (by decide)

/-- C2 counterexample: the function returns a bare list and nothing else,
and the unknown customer u2 and the known customer u1 (who has bought the
whole catalog) receive the very same output, so no UnknownCustomer signal
distinguishing the two cases exists in the code. -/
theorem claim_C2_counterexample :
    user_map dataOneItemAllBought.user_ids (canonId (RawId.strId ( "u2" ))) = none ∧
    (user_map dataOneItemAllBought.user_ids (canonId (RawId.strId ( "u1" )))).isSome = true ∧
    get_twotower_recommendations dataOneItemAllBought (RawId.strId ( "u2" )) 1 = some [] ∧
    get_twotower_recommendations dataOneItemAllBought (RawId.strId ( "u1" )) 1 = some [] := by
  refine ⟨by decide, by decide, rfl, rfl⟩

/-- C1 (amended): for every request size of at least one, a known customer
receives at most n item ids, and no returned id equals the canonical form of
any item in the customer history; for a request size of zero the loop can
still return one item (see the counterexample), because the break test runs
only after the first append. -/
theorem claim_C1_at_most_n_none_from_history
    (d : AppData) (cid : RawId) (n : ℕ) (recs : List String)
    (hn : 1 ≤ n)
    (hknown : (user_map d.user_ids (canonId cid)).isSome)
    (hret : get_twotower_recommendations d cid n = some recs) :
    recs.length ≤ n ∧
      ∀ m ∈ recs, ∀ mid ∈ user_history_mids d.orders cid, m ≠ canonId mid := by
  rcases Option.isSome_iff_exists.1 hknown with ⟨u_idx, hmap⟩
  simp only [get_twotower_recommendations, hmap] at hret
  cases hvec : d.user_vecs.get? u_idx with
  | none =>
    rw [hvec, Option.none_bind] at hret
    cases hret
  | some target =>
    simp only [hvec, Option.some_bind] at hret
    cases hsc : npDotMatrix d.item_vecs target with
    | none =>
      rw [hsc, Option.none_bind] at hret
      cases hret
    | some scoresQ =>
      simp only [hsc, Option.some_bind] at hret
      constructor
      · exact filterLoopM_length _ [] recs (by simp only [List.length_nil]; omega) hret
      · intro m hm mid hmid heq
        rcases filterLoopM_not_bought _ [] recs hret m hm with hacc | hnb
        · exact absurd hacc (List.not_mem_nil m)
        · apply hnb
          rw [heq, already_bought_set]
          exact List.mem_map_of_mem canonId hmid

/-- C1 witness: a known customer with an empty history and request size one
receives one item, which is no history item. -/
theorem claim_C1_witness :
    ([ "a" ] : List String).length ≤ 1 ∧
      ∀ m ∈ ([ "a" ] : List String),
        ∀ mid ∈ user_history_mids dataOneItemNoOrders.orders (RawId.strId ( "u" )),
          m ≠ canonId mid :=
  claim_C1_at_most_n_none_from_history dataOneItemNoOrders (RawId.strId ( "u" )) 1 [ "a" ]
    (by decide) (by decide) rfl

/-- C1 counterexample: for request size 0 the code returns one item, more
than the requested zero — the break test runs only after the append. -/
theorem claim_C1_counterexample :
    get_twotower_recommendations dataOneItemNoOrders (RawId.strId ( "u" )) 0 = some [ "a" ] ∧
    ¬ (([ "a" ] : List String).length ≤ 0) := by
  refine ⟨rfl, by decide⟩

/-- C3 (amended): for a known customer and request size of at least one, the
result is exactly the first n eligible entries of the overfetched window —
the top n + 100 scores — so the list has length n whenever the WINDOW minus
purchased items holds at least n items; it can be shorter than n even when
the full catalog minus purchased items holds n eligible items, because only
the window is filtered (see the counterexample). -/
theorem claim_C3_result_is_window_filter_take
    (d : AppData) (cid : RawId) (n u_idx : ℕ) (target scoresQ : List ℚ)
    (hn : 1 ≤ n)
    (hmap : user_map d.user_ids (canonId cid) = some u_idx)
    (hvec : d.user_vecs.get? u_idx = some target)
    (hsc : npDotMatrix d.item_vecs target = some scoresQ)
    (hlen : d.item_vecs.length ≤ d.item_ids.length) :
    get_twotower_recommendations d cid n =
      some ((((topCandidates (scoresQ.map Score.val) n).filterMap
          (item_inv_map d.item_ids)).filter
            (fun m => decide (m ∉ already_bought_set d.orders cid))).take n) := by
  have htot : ∀ i ∈ topCandidates (scoresQ.map Score.val) n,
      (item_inv_map d.item_ids i).isSome := by
    intro i hi
    apply item_inv_map_isSome
    have h1 := mem_topCandidates_lt hi
    rw [List.length_map] at h1
    have h2 := npDotMatrix_length _ _ _ hsc
    omega
  simp only [get_twotower_recommendations, hmap, hvec, Option.some_bind, hsc]
  rw [filterLoopM_eq_take _ [] htot (by simp only [List.length_nil]; omega)]
  simp

/-- C3 witness: the simple one-item query returns exactly the filtered,
truncated window. -/
theorem claim_C3_witness :
    get_twotower_recommendations dataSimpleQuery (RawId.intId 1) 1 =
      some ((((topCandidates (([ (2 : ℚ) ]).map Score.val) 1).filterMap
          (item_inv_map dataSimpleQuery.item_ids)).filter
            (fun m => decide (m ∉ already_bought_set dataSimpleQuery.orders (RawId.intId 1)))).take 1) :=
  claim_C3_result_is_window_filter_take dataSimpleQuery (RawId.intId 1) 1 0 [ 1 ] [ 2 ]
    (by decide) (by decide) (by decide)
    (by show npDotMatrix [ [ (2 : ℚ) ] ] [ 1 ] = some [ 2 ]
        rw [npDotMatrix, npDot_single, Option.some_bind, npDotMatrix]
        rfl)
    (by decide)

/-- C3 counterexample: in the saturated-window store the catalog minus the
purchases still holds one eligible item, yet a request for one
recommendation returns the empty list: the 101-index window holds only
purchased items, and no larger fetch is attempted. -/
theorem claim_C3_counterexample :
    ((dataSaturatedWindow.item_ids.map canonId).filter
        (fun m => decide (m ∉ already_bought_set dataSaturatedWindow.orders (RawId.intId 0)))).length = 1 ∧
    get_twotower_recommendations dataSaturatedWindow (RawId.intId 0) 1 = some [] := by
  constructor
  · decide
  · have hsc : npDotMatrix dataSaturatedWindow.item_vecs [ 1 ] =
        some ((List.range 102).map (fun i => ((i : ℚ)))) := by
      show npDotMatrix ((List.range 102).map (fun i => [ ((i : ℚ)) ])) [ 1 ] =
        some ((List.range 102).map (fun i => ((i : ℚ))))
      exact npDotMatrix_map _ _ _ (fun a => npDot_single _) _
    have hmap : user_map dataSaturatedWindow.user_ids (canonId (RawId.intId 0)) = some 0 := by
      decide
    have hvec : dataSaturatedWindow.user_vecs.get? 0 = some [ 1 ] := by decide
    simp only [get_twotower_recommendations, hmap, hvec, Option.some_bind, hsc]
    decide

theorem uniqueAux_congr [DecidableEq α] :
    ∀ (l s1 s2 : List α), (∀ x, x ∈ s1 ↔ x ∈ s2) → uniqueAux s1 l = uniqueAux s2 l := by
  intro l
  induction l with
  | nil => intro s1 s2 _; rfl
  | cons a t ih =>
    intro s1 s2 hs
    rw [uniqueAux, uniqueAux]
    by_cases ha : a ∈ s1
    · rw [if_pos ha, if_pos ((hs a).1 ha)]
      exact ih s1 s2 hs
    · rw [if_neg ha, if_neg (fun h => ha ((hs a).2 h))]
      rw [ih (a :: s1) (a :: s2) (fun x => by simp [hs x])]

theorem foldl_firstSeen [DecidableEq α] :
    ∀ (l acc : List α),
      l.foldl (fun acc a => if a ∈ acc then acc else acc ++ [a]) acc =
        acc ++ uniqueAux acc l := by
  intro l
  induction l with
  | nil => intro acc; simp [uniqueAux]
  | cons a t ih =>
    intro acc
    rw [List.foldl_cons, uniqueAux]
    by_cases ha : a ∈ acc
    · rw [if_pos ha, if_pos ha, ih]
    · rw [if_neg ha, if_neg ha, ih]
      rw [uniqueAux_congr t (acc ++ [ a ]) (a :: acc) (fun x => by simp [or_comm])]
      simp

theorem uniqueAux_nodup [DecidableEq α] :
    ∀ (l seen : List α), (uniqueAux seen l).Nodup ∧ ∀ x ∈ uniqueAux seen l, x ∉ seen := by
  intro l
  induction l with
  | nil => intro seen; exact ⟨List.nodup_nil, by simp [uniqueAux]⟩
  | cons a t ih =>
    intro seen
    rw [uniqueAux]
    by_cases ha : a ∈ seen
    · rw [if_pos ha]
      exact ih seen
    · rw [if_neg ha]
      have iht := ih (a :: seen)
      constructor
      · refine List.nodup_cons.2 ⟨?_, iht.1⟩
        intro hmem
        exact (iht.2 a hmem) (List.mem_cons_self a seen)
      · intro x hx
        rcases List.mem_cons.1 hx with rfl | hx2
        · exact ha
        · intro hxs
          exact (iht.2 x hx2) (List.mem_cons.2 (Or.inr hxs))

/-- C8: the history of a customer is the matching mids of the purchase log
with duplicates removed keeping the first occurrence (it equals the
first-seen fold the spec describes), it holds no duplicates, and a customer
with no matching purchase rows gets the empty sequence, not an error. -/
theorem claim_C8_history_distinct_first_seen (orders : List (RawId × RawId)) (cid : RawId) :
    user_history_mids orders cid = firstSeenSpec (matchingMids orders cid) ∧
    (user_history_mids orders cid).Nodup ∧
    ((∀ r ∈ orders, canonId r.1 ≠ canonId cid) → user_history_mids orders cid = []) := by
  refine ⟨?_, ?_, ?_⟩
  · rw [firstSeenSpec, foldl_firstSeen]
    rfl
  · exact (uniqueAux_nodup (matchingMids orders cid) []).1
  · intro hnone
    rw [user_history_mids, matchingMids]
    have hfil : orders.filter (fun r => decide (canonId r.1 = canonId cid)) = [] := by
      rw [List.filter_eq_nil_iff]
      intro r hr
      simp only [decide_eq_true_eq]
      exact hnone r hr
    rw [hfil]
    rfl

/-- C8 witness: a customer absent from a one-row purchase log has the empty
history. -/
theorem claim_C8_witness :
    user_history_mids [ (RawId.intId 5, RawId.intId 9) ] (RawId.intId 7) = [] :=
  (claim_C8_history_distinct_first_seen [ (RawId.intId 5, RawId.intId 9) ]
    (RawId.intId 7)).2.2 (by decide)

theorem foldl_dictInsert :
    ∀ (l : List (ℕ × RawId)) (m : String → Option ℕ) (k : String),
      (l.foldl dictInsertStep m) k =
        (((l.filter (fun p => decide (canonId p.2 = k))).map Prod.fst).getLast?).or (m k) := by
  intro l
  induction l using List.reverseRecOn with
  | nil =>
    intro m k
    simp [Option.none_or]
  | append_singleton t p ih =>
    intro m k
    rw [List.foldl_append, List.foldl_cons, List.foldl_nil, List.filter_append]
    by_cases hk : canonId p.2 = k
    · have hfp : List.filter (fun q => decide (canonId q.2 = k)) [ p ] = [ p ] := by
        simp [List.filter, hk]
      rw [hfp, List.map_append]
      show dictInsertStep (t.foldl dictInsertStep m) p k = _
      simp only [dictInsertStep]
      rw [if_pos hk.symm]
      simp [List.getLast?_concat]
    · have hfp : List.filter (fun q => decide (canonId q.2 = k)) [ p ] = [] := by
        simp [List.filter, hk]
      rw [hfp, List.append_nil]
      show dictInsertStep (t.foldl dictInsertStep m) p k = _
      simp only [dictInsertStep]
      rw [if_neg (fun h => hk h.symm)]
      exact ih m k

/-- C9: for every id list and every canonical key, the customer index maps
the key to the row index of its LAST occurrence in the enumerated list (and
to nothing when the key never occurs): sequential dict insertion overwrites
earlier bindings. -/
theorem claim_C9_duplicate_canonical_id_last_occurrence_wins (ids : List RawId) (k : String) :
    user_map ids k =
      ((ids.enum.filter (fun p => decide (canonId p.2 = k))).map Prod.fst).getLast? := by
  rw [user_map, foldl_dictInsert, Option.or_none]

/-- C7 (amended): a missing user-history artifact raises and aborts
initialization exactly like a missing embeddings artifact: the code loads
each artifact as one required single file inside one try block, with no
shard loop and no tolerated-missing policy. -/
theorem claim_C7_missing_artifact_aborts (fs : FileStore) :
    (fs.user_history = none → initializeApp fs = none) ∧
    (fs.user_embeddings = none → initializeApp fs = none) := by
  obtain ⟨o1, o2, o3, o4, o5⟩ := fs
  constructor
  · intro h
    cases o4 with
    | none => cases o1 <;> cases o2 <;> cases o3 <;> rfl
    | some v => simp at h
  · intro h
    cases o1 with
    | none => rfl
    | some v => simp at h

/-- C7 witness: the store missing only the history file fails to
initialize. -/
theorem claim_C7_witness : initializeApp storeNoHistory = none :=
  (claim_C7_missing_artifact_aborts storeNoHistory).1 rfl

/-- C7 counterexample: with every artifact present except the user history
file, loading raises an error naming the history file and initialization
aborts — the claim says a missing history artifact does not raise and
loading continues. -/
theorem claim_C7_counterexample :
    load_data storeNoHistory = Except.error ( "app_data/user_history.pkl" ) ∧
    initializeApp storeNoHistory = none :=
  ⟨rfl, rfl⟩
